import Mathlib

/-!
Verification of the `stateless` state-machine compiler (src/src/lib.rs).

The development shallowly embeds the procedural macro's data model and the
four pipeline stages it implements: the clause parser (`impl Parse for
StateMachine`, lines 45-103, together with the transition grammar of lines
105-172), the duplicate-transition validator (lines 174-208), the
model-building walk that collects states, events and the initial state
(lines 230-278) and the code generator for the `process_event` evaluator
(lines 315-356 and 368-373).  Identifiers are modelled as `String`s; the
generated `State`/`Event` enum values are identified with the variant
names they print as.
-/

set_option maxHeartbeats 1000000

namespace Stateless

/-! ## Data model (lib.rs lines 21-43) -/

/-- Source pattern of a transition rule: `StatePattern` in the source.
`single` carries the one named state and its `*` (initial) mark, `multiple`
the list of disjuncts each with its own mark, `wildcard` is the parse of
the token `_`. -/
inductive StatePattern where
  | single (ident : String) (initial : Bool)
  | multiple (states : List (String × Bool))
  | wildcard
deriving DecidableEq

/-- Target of a transition rule: a named state or the `_`/omitted internal
marker (`TargetState` in the source). -/
inductive TargetState where
  | state (ident : String)
  | internal
deriving DecidableEq

/-- One transition rule (`Transition` in the source): a source pattern, a
non-empty event list and a target. -/
structure Transition where
  states : StatePattern
  events : List String
  target : TargetState
deriving DecidableEq

/-- Root parse artifact (`StateMachine` in the source). -/
structure StateMachine where
  name : Option String
  derive_states : Option (List String)
  derive_events : Option (List String)
  transitions : List Transition
deriving DecidableEq

/-! ## Generated evaluator (lib.rs lines 315-356 and 368-373)

The macro emits, for every transition and every event in its event list,
one block `if state_condition && event_condition { return Some(target) }`,
in declaration order, followed by a final `None`.  `stateCond` is the
emitted state condition (line 338-345): literally `true` for a wildcard,
an equality `matches!(*self, State::X)` for a single state, a `||`-chain
of such equalities for a multiple pattern.  `targetOf` resolves the
emitted result expression (lines 320-323): the named variant for a state
target, `self.clone()` — the current state value — for an internal one. -/

def stateCond : StatePattern → String → Bool
  | .single ident _, s => s == ident
  | .multiple sts, s => sts.any (fun p => s == p.1)
  | .wildcard, _ => true

def targetOf (s : String) : TargetState → String
  | .state t => t
  | .internal => s

/-- The run of per-event checks emitted for one transition (lines
347-355): `cond` is the transition's state condition, `res` its resolved
target; the checks test the incoming event against each declared event in
order. -/
def eventScan (cond : Bool) (res : String) (e : String) : List String → Option String
  | [] => none
  | ev :: evs => if cond && (e == ev) then some res else eventScan cond res e evs

/-- The generated `process_event` body (lines 368-373): the flattened
per-transition, per-event checks in declaration order, then `None`. -/
def processEvent : List Transition → String → String → Option String
  | [], _, _ => none
  | t :: rest, s, e =>
    match eventScan (stateCond t.states s) (targetOf s t.target) e t.events with
    | some r => some r
    | none => processEvent rest s e

/-! Specification-side formulation of the evaluator, following the words
of the spec (§4.4): an ordered first-match scan that selects the first
transition whose state predicate holds and whose event list contains the
incoming event. -/

/-- Boolean match of one transition against a (state, event) pair:
state predicate and event-membership predicate. -/
def transMatches (t : Transition) (s e : String) : Bool :=
  stateCond t.states s && t.events.contains e

/-- The transition selected by the ordered first-match scan, if any. -/
def selectedTransition (ts : List Transition) (s e : String) : Option Transition :=
  ts.find? (fun t => transMatches t s e)

/-- Evaluator as the spec words it: map the selected transition to its
resolved target. -/
def processEventSpec (ts : List Transition) (s e : String) : Option String :=
  (selectedTransition ts s e).map (fun t => targetOf s t.target)

/-! ### Helper lemmas relating the emitted scan to the first-match spec -/

theorem eventScan_eq_if (cond : Bool) (res e : String) (evs : List String) :
    eventScan cond res e evs = if cond && evs.contains e then some res else none := by
  induction evs with
  | nil => simp [eventScan]
  | cons ev evs ih =>
    simp only [eventScan, List.contains_cons, ih]
    by_cases hc : cond <;> by_cases he : (e == ev) <;> simp [hc, he]

theorem processEvent_eq_spec (ts : List Transition) (s e : String) :
    processEvent ts s e = processEventSpec ts s e := by
  induction ts with
  | nil => rfl
  | cons t rest ih =>
    rw [processEvent, eventScan_eq_if, processEventSpec, selectedTransition, List.find?_cons]
    rw [show (stateCond t.states s && t.events.contains e) = transMatches t s e from rfl]
    cases h : transMatches t s e with
    | true => simp
    | false => simpa [processEventSpec, selectedTransition] using ih

/-! ## Validator (lib.rs lines 174-208)

`validate_no_duplicate_transitions` walks the transitions, expands each
pattern to its concrete state names (a `Wildcard` is skipped via
`continue`, i.e. contributes no names), and inserts every
`(state, event)` pair into a seen-set, failing with that pair as soon as
an insertion finds the pair already present.  The `BTreeSet` is modelled
by a list used only through membership. -/

/-- Concrete state names an expanded pattern covers (lines 178-186);
the wildcard arm is the `continue`, contributing nothing. -/
def patternStateNames : StatePattern → List String
  | .single ident _ => [ident]
  | .multiple sts => sts.map (fun p => p.1)
  | .wildcard => []

/-- The `(state, event)` keys one transition feeds to the seen-set, in
the source's nesting order: states outer, events inner (lines 188-191). -/
def transPairs (t : Transition) : List (String × String) :=
  (patternStateNames t.states).flatMap (fun st => t.events.map (fun e => (st, e)))

/-- Sequential insert-or-fail over a run of keys (lines 192-202): the
first key already seen is returned as the error. -/
def insertPairs : List (String × String) → List (String × String) →
    Except (String × String) (List (String × String))
  | seen, [] => .ok seen
  | seen, k :: ks => if k ∈ seen then .error k else insertPairs (k :: seen) ks

/-- The validator loop carrying the seen-set across transitions. -/
def validateAux : List (String × String) → List Transition → Except (String × String) Unit
  | _, [] => .ok ()
  | seen, t :: rest =>
    match insertPairs seen (transPairs t) with
    | .ok seen2 => validateAux seen2 rest
    | .error k => .error k

/-- `validate_no_duplicate_transitions` (line 174): start from an empty
seen-set. -/
def validateNoDuplicateTransitions (ts : List Transition) : Except (String × String) Unit :=
  validateAux [] ts

/-- Every `(state, event)` key the validator processes, flattened in
processing order. -/
def allPairs (ts : List Transition) : List (String × String) :=
  ts.flatMap transPairs

/-! ## Model builder (lib.rs lines 230-278)

One walk over the transitions accumulating the ordered distinct state
list, the ordered distinct event list and the first `*`-marked state. -/

/-- Accumulator of the walk: `all_states`, `all_events`, `initial_state`
of lines 230-232. -/
structure Model where
  allStates : List String
  allEvents : List String
  initialState : Option String
deriving DecidableEq

/-- Push-if-absent registration (`if !xs.iter().any(|s| s == ident) {
xs.push(ident) }`, the membership test written as list membership). -/
def registerName (l : List String) (s : String) : List String :=
  if s ∈ l then l else l ++ [s]

/-- One `(ident, initial)` disjunct of a `Multiple` pattern (lines
245-252): register the state, record it as initial if it is marked and no
initial state has been recorded yet. -/
def multiStep (m : Model) (p : String × Bool) : Model :=
  { m with
    allStates := registerName m.allStates p.1,
    initialState := if p.2 && m.initialState.isNone then some p.1 else m.initialState }

/-- Processing of one transition (lines 234-268): pattern states with
their initial marks, then a named target, then the event list. -/
def buildStep (m : Model) (t : Transition) : Model :=
  let m1 :=
    match t.states with
    | .single ident initial =>
      { m with
        allStates := registerName m.allStates ident,
        initialState :=
          if initial && m.initialState.isNone then some ident else m.initialState }
    | .multiple sts => sts.foldl multiStep m
    | .wildcard => m
  let m2 :=
    match t.target with
    | .state tgt => { m1 with allStates := registerName m1.allStates tgt }
    | .internal => m1
  { m2 with allEvents := t.events.foldl registerName m2.allEvents }

/-- The whole walk, from empty accumulators (lines 230-268). -/
def buildModel (ts : List Transition) : Model :=
  ts.foldl buildStep { allStates := [], allEvents := [], initialState := none }

/-- Resolution of the initial state after the walk (lines 270-278):
the recorded `*`-marked state, else the first collected state, else the
synthetic name `"Initial"`. -/
def resolvedInitial (ts : List Transition) : String :=
  ((buildModel ts).initialState).getD ((((buildModel ts).allStates).head?).getD "Initial")

/-! Specification-side descriptions of the walk's three outputs. -/

/-- The `(state, initial-mark)` entries a pattern declares, in source
order. -/
def patternEntries : StatePattern → List (String × Bool)
  | .single ident initial => [(ident, initial)]
  | .multiple sts => sts
  | .wildcard => []

/-- First `*`-marked state of one pattern. -/
def patternMarked (p : StatePattern) : Option String :=
  ((patternEntries p).find? (fun q => q.2)).map (fun q => q.1)

/-- First `*`-marked state of the whole spec, in declaration order. -/
def markedFirst (ts : List Transition) : Option String :=
  ((ts.flatMap (fun t => patternEntries t.states)).find? (fun q => q.2)).map (fun q => q.1)

/-- State names a target contributes: the named state, or nothing for an
internal target. -/
def targetNames : TargetState → List String
  | .state ident => [ident]
  | .internal => []

/-- Stream of state references in registration order: for each transition
its concrete pattern states then its named target. -/
def referencedStates (ts : List Transition) : List String :=
  ts.flatMap (fun t => patternStateNames t.states ++ targetNames t.target)

/-- Stream of event references in registration order. -/
def referencedEvents (ts : List Transition) : List String :=
  ts.flatMap (fun t => t.events)

/-- Keep-first deduplication relative to a set of already-seen names:
a name is kept at its first unseen occurrence and dropped afterwards. -/
def dedupFirstAux (seen : List String) : List String → List String
  | [] => []
  | x :: xs => if x ∈ seen then dedupFirstAux seen xs else x :: dedupFirstAux (x :: seen) xs

/-- Keep-first deduplication: retain each name's first occurrence. -/
def dedupFirst (l : List String) : List String := dedupFirstAux [] l

/-! ### Helper lemmas about registration and deduplication -/

theorem dedupFirstAux_congr (l : List String) (s1 s2 : List String)
    (h : ∀ a, a ∈ s1 ↔ a ∈ s2) : dedupFirstAux s1 l = dedupFirstAux s2 l := by
  induction l generalizing s1 s2 with
  | nil => rfl
  | cons x xs ih =>
    by_cases hx : x ∈ s1
    · rw [dedupFirstAux, if_pos hx, dedupFirstAux, if_pos ((h x).mp hx)]
      exact ih s1 s2 h
    · rw [dedupFirstAux, if_neg hx, dedupFirstAux, if_neg (fun hc => hx ((h x).mpr hc))]
      rw [ih (x :: s1) (x :: s2) (fun a => by simp [h a])]

theorem mem_dedupFirstAux (l : List String) (seen : List String) (a : String) :
    a ∈ dedupFirstAux seen l ↔ a ∈ l ∧ a ∉ seen := by
  induction l generalizing seen with
  | nil => simp [dedupFirstAux]
  | cons x xs ih =>
    by_cases hx : x ∈ seen
    · rw [dedupFirstAux, if_pos hx, ih]
      by_cases ha : a = x
      · subst ha; simp [hx]
      · simp [ha]
    · rw [dedupFirstAux, if_neg hx, List.mem_cons, ih]
      by_cases ha : a = x
      · subst ha; simp [hx]
      · simp [ha]

theorem nodup_dedupFirstAux (l : List String) (seen : List String) :
    (dedupFirstAux seen l).Nodup := by
  induction l generalizing seen with
  | nil => exact List.nodup_nil
  | cons x xs ih =>
    by_cases hx : x ∈ seen
    · rw [dedupFirstAux, if_pos hx]; exact ih seen
    · rw [dedupFirstAux, if_neg hx]
      refine List.nodup_cons.mpr ⟨?_, ih (x :: seen)⟩
      intro hc
      exact ((mem_dedupFirstAux _ _ _).mp hc).2 (List.mem_cons_self x seen)

theorem head?_dedupFirst (l : List String) : (dedupFirst l).head? = l.head? := by
  cases l with
  | nil => rfl
  | cons x xs => simp [dedupFirst, dedupFirstAux]

theorem dedupFirst_eq_nil_iff (l : List String) : dedupFirst l = [] ↔ l = [] := by
  cases l with
  | nil => simp [dedupFirst, dedupFirstAux]
  | cons x xs =>
    simp [dedupFirst, dedupFirstAux]

theorem mem_dedupFirst (l : List String) (a : String) : a ∈ dedupFirst l ↔ a ∈ l := by
  rw [dedupFirst, mem_dedupFirstAux]
  simp

theorem nodup_dedupFirst (l : List String) : (dedupFirst l).Nodup :=
  nodup_dedupFirstAux l []

theorem foldl_registerName_eq (l acc : List String) :
    l.foldl registerName acc = acc ++ dedupFirstAux acc l := by
  induction l generalizing acc with
  | nil => simp [dedupFirstAux]
  | cons x xs ih =>
    rw [List.foldl_cons]
    by_cases hx : x ∈ acc
    · rw [show registerName acc x = acc from if_pos hx, ih, dedupFirstAux, if_pos hx]
    · rw [show registerName acc x = acc ++ [x] from if_neg hx, ih, dedupFirstAux, if_neg hx]
      rw [dedupFirstAux_congr xs (acc ++ [x]) (x :: acc) (fun a => by simp [or_comm])]
      simp

/-! ### Characterization of the model-building walk -/

theorem markedFirst_cons (t : Transition) (ts : List Transition) :
    markedFirst (t :: ts) = (patternMarked t.states).or (markedFirst ts) := by
  rw [markedFirst, List.flatMap_cons, List.find?_append, Option.map_or', patternMarked,
    markedFirst]

theorem foldl_multiStep_eq (sts : List (String × Bool)) (m : Model) :
    sts.foldl multiStep m =
      { allStates := (sts.map (fun p => p.1)).foldl registerName m.allStates,
        allEvents := m.allEvents,
        initialState := m.initialState.or ((sts.find? (fun q => q.2)).map (fun q => q.1)) } := by
  induction sts generalizing m with
  | nil => simp [Option.or_none]
  | cons p ps ih =>
    rw [List.foldl_cons, ih, List.map_cons, List.foldl_cons, List.find?_cons]
    cases hm : m.initialState with
    | some a =>
      cases hp : p.2 with
      | true => simp [multiStep, hm, hp, Option.or]
      | false => simp [multiStep, hm, hp, Option.or]
    | none =>
      cases hp : p.2 with
      | true => simp [multiStep, hm, hp, Option.or]
      | false => simp [multiStep, hm, hp, Option.or]

theorem buildStep_eq (m : Model) (t : Transition) :
    buildStep m t =
      { allStates :=
          (patternStateNames t.states ++ targetNames t.target).foldl registerName m.allStates,
        allEvents := t.events.foldl registerName m.allEvents,
        initialState := m.initialState.or (patternMarked t.states) } := by
  cases hs : t.states with
  | single ident initial =>
    cases ht : t.target with
    | state tgt =>
      cases hm : m.initialState with
      | some a =>
        cases hi : initial <;>
          simp [buildStep, hs, ht, hm, hi, patternStateNames, targetNames, patternMarked,
            patternEntries, Option.or]
      | none =>
        cases hi : initial <;>
          simp [buildStep, hs, ht, hm, hi, patternStateNames, targetNames, patternMarked,
            patternEntries, Option.or]
    | internal =>
      cases hm : m.initialState with
      | some a =>
        cases hi : initial <;>
          simp [buildStep, hs, ht, hm, hi, patternStateNames, targetNames, patternMarked,
            patternEntries, Option.or]
      | none =>
        cases hi : initial <;>
          simp [buildStep, hs, ht, hm, hi, patternStateNames, targetNames, patternMarked,
            patternEntries, Option.or]
  | multiple sts =>
    cases ht : t.target with
    | state tgt =>
      simp [buildStep, hs, ht, foldl_multiStep_eq, patternStateNames, targetNames,
        patternMarked, patternEntries]
    | internal =>
      simp [buildStep, hs, ht, foldl_multiStep_eq, patternStateNames, targetNames,
        patternMarked, patternEntries]
  | wildcard =>
    cases ht : t.target with
    | state tgt =>
      simp [buildStep, hs, ht, patternStateNames, targetNames, patternMarked, patternEntries,
        Option.or_none]
    | internal =>
      simp [buildStep, hs, ht, patternStateNames, targetNames, patternMarked, patternEntries,
        Option.or_none]

theorem foldl_buildStep_eq (ts : List Transition) (m : Model) :
    ts.foldl buildStep m =
      { allStates := (referencedStates ts).foldl registerName m.allStates,
        allEvents := (referencedEvents ts).foldl registerName m.allEvents,
        initialState := m.initialState.or (markedFirst ts) } := by
  induction ts generalizing m with
  | nil => simp [referencedStates, referencedEvents, markedFirst, Option.or_none]
  | cons t ts ih =>
    rw [List.foldl_cons, buildStep_eq, ih]
    simp only [referencedStates, referencedEvents, List.flatMap_cons, List.foldl_append,
      markedFirst_cons, Option.or_assoc]

theorem buildModel_eq (ts : List Transition) :
    buildModel ts =
      { allStates := dedupFirst (referencedStates ts),
        allEvents := dedupFirst (referencedEvents ts),
        initialState := markedFirst ts } := by
  rw [buildModel, foldl_buildStep_eq]
  simp [foldl_registerName_eq, dedupFirst, Option.none_or]

/-! ### Helper lemmas about the validator -/

/-- Wildcard test on a pattern (the `continue` arm of the validator). -/
def isWildcard : StatePattern → Bool
  | .wildcard => true
  | _ => false

theorem insertPairs_ok (seen l s2 : List (String × String))
    (h : insertPairs seen l = .ok s2) : l.Nodup ∧ ∀ p ∈ l, p ∉ seen := by
  induction l generalizing seen with
  | nil => simp
  | cons k ks ih =>
    rw [insertPairs] at h
    by_cases hk : k ∈ seen
    · rw [if_pos hk] at h; cases h
    · rw [if_neg hk] at h
      obtain ⟨h1, h2⟩ := ih (k :: seen) h
      refine ⟨List.nodup_cons.mpr ⟨fun hc => (h2 k hc) (List.mem_cons_self _ _), h1⟩, ?_⟩
      intro p hp
      rcases List.mem_cons.mp hp with rfl | hp'
      · exact hk
      · exact fun hc => (h2 p hp') (List.mem_cons_of_mem _ hc)

theorem insertPairs_error (seen l : List (String × String)) (k : String × String)
    (h : insertPairs seen l = .error k) :
    ∃ pre post, l = pre ++ k :: post ∧ pre.Nodup ∧ (∀ p ∈ pre, p ∉ seen) ∧
      (k ∈ seen ∨ k ∈ pre) := by
  induction l generalizing seen with
  | nil => rw [insertPairs] at h; cases h
  | cons x xs ih =>
    rw [insertPairs] at h
    by_cases hx : x ∈ seen
    · rw [if_pos hx] at h
      obtain rfl : x = k := by cases h; rfl
      exact ⟨[], xs, rfl, List.nodup_nil, by simp, Or.inl hx⟩
    · rw [if_neg hx] at h
      obtain ⟨pre, post, heq, hnd, hdisj, hk⟩ := ih (x :: seen) h
      refine ⟨x :: pre, post, by rw [heq, List.cons_append], ?_, ?_, ?_⟩
      · exact List.nodup_cons.mpr
          ⟨fun hc => (hdisj x hc) (List.mem_cons_self _ _), hnd⟩
      · intro p hp
        rcases List.mem_cons.mp hp with rfl | hp'
        · exact hx
        · exact fun hc => (hdisj p hp') (List.mem_cons_of_mem _ hc)
      · rcases hk with hk | hk
        · rcases List.mem_cons.mp hk with rfl | hk'
          · exact Or.inr (List.mem_cons_self _ _)
          · exact Or.inl hk'
        · exact Or.inr (List.mem_cons_of_mem _ hk)

theorem insertPairs_append (a b seen : List (String × String)) :
    insertPairs seen (a ++ b) =
      match insertPairs seen a with
      | .ok s2 => insertPairs s2 b
      | .error k => .error k := by
  induction a generalizing seen with
  | nil => rw [List.nil_append, insertPairs]
  | cons x xs ih =>
    rw [List.cons_append, insertPairs, insertPairs]
    by_cases hx : x ∈ seen
    · rw [if_pos hx, if_pos hx]
    · rw [if_neg hx, if_neg hx]
      exact ih (x :: seen)

theorem validateAux_eq (ts : List Transition) (seen : List (String × String)) :
    validateAux seen ts =
      match insertPairs seen (allPairs ts) with
      | .ok _ => .ok ()
      | .error k => .error k := by
  induction ts generalizing seen with
  | nil => rw [validateAux, allPairs, List.flatMap_nil, insertPairs]
  | cons t ts ih =>
    rw [validateAux, allPairs, List.flatMap_cons, insertPairs_append]
    cases h : insertPairs seen (transPairs t) with
    | ok s2 => simp only [ih s2, allPairs]
    | error k => rfl

theorem validate_error_of_not_nodup (ts : List Transition)
    (h : ¬ (allPairs ts).Nodup) :
    ∃ k pre post, validateNoDuplicateTransitions ts = .error k ∧
      allPairs ts = pre ++ k :: post ∧ pre.Nodup ∧ k ∈ pre := by
  rw [validateNoDuplicateTransitions, validateAux_eq]
  cases hi : insertPairs [] (allPairs ts) with
  | ok s2 => exact absurd (insertPairs_ok _ _ _ hi).1 h
  | error k =>
    obtain ⟨pre, post, heq, hnd, -, hk⟩ := insertPairs_error _ _ _ hi
    rcases hk with hk | hk
    · cases hk
    · exact ⟨k, pre, post, rfl, heq, hnd, hk⟩

theorem transPairs_eq_nil_of_wildcard (t : Transition) (h : isWildcard t.states = true) :
    transPairs t = [] := by
  cases hs : t.states with
  | wildcard => rw [transPairs, hs, patternStateNames, List.flatMap_nil]
  | single i b => rw [hs] at h; cases h
  | multiple sts => rw [hs] at h; cases h

theorem allPairs_cons (t : Transition) (ts : List Transition) :
    allPairs (t :: ts) = transPairs t ++ allPairs ts := by
  simp [allPairs]

theorem allPairs_filter_wildcard (ts : List Transition) :
    allPairs (ts.filter (fun t => !isWildcard t.states)) = allPairs ts := by
  induction ts with
  | nil => rfl
  | cons t ts ih =>
    rw [List.filter_cons, allPairs_cons]
    cases hw : isWildcard t.states with
    | true => simp [ih, transPairs_eq_nil_of_wildcard t hw]
    | false => simp [allPairs_cons, ih]

theorem validate_ignores_wildcards (ts : List Transition) :
    validateNoDuplicateTransitions (ts.filter (fun t => !isWildcard t.states)) =
      validateNoDuplicateTransitions ts := by
  rw [validateNoDuplicateTransitions, validateNoDuplicateTransitions, validateAux_eq,
    validateAux_eq, allPairs_filter_wildcard]

theorem not_nodup_flatMap_of_shared {α β : Type} (l : List α) (f : α → List β)
    (i j : Nat) (hi : i < l.length) (hj : j < l.length) (hij : i < j) (b : β)
    (hbi : b ∈ f (l.get ⟨i, hi⟩)) (hbj : b ∈ f (l.get ⟨j, hj⟩)) :
    ¬ (l.flatMap f).Nodup := by
  intro hnd
  obtain ⟨-, hpw⟩ := List.nodup_flatMap.mp hnd
  exact List.pairwise_iff_getElem.mp hpw i j hi hj hij hbi hbj

/-! ## Parser (lib.rs lines 45-172)

The clause parser is modelled over a token-tree stream as `syn` sees it:
identifiers, the punctuation the grammar uses, and bracket/brace groups
(each group is a single token tree carrying its content).  `syn`'s
`peek` returns `false` at end of input, and `lookahead1.error()` on a
failed identifier peek is the `expectedIdentifier` diagnostic.  Loops are
written with explicit fuel; the entry points seed fuel with more than the
token count, and each iteration consumes at least one token. -/

inductive Tok where
  | ident (s : String)
  | colon
  | comma
  | star
  | pipe
  | plus
  | underscore
  | eq
  | bracket (content : List Tok)
  | brace (content : List Tok)

inductive ParseErr where
  | expectedIdentifier
  | expectedColon
  | unknownClause (s : String)
  | missingTransitionsBlock
  | expectedBracket
  | expectedBrace
  | expectedComma
  | expectedPlus
  | outOfFuel
deriving DecidableEq

/-- `input.peek(syn::Ident)`: next token tree is an identifier. -/
def peekIdent : List Tok → Bool
  | .ident _ :: _ => true
  | _ => false

/-- `input.peek2(Token![:])`: second token tree is a colon. -/
def peek2Colon : List Tok → Bool
  | _ :: .colon :: _ => true
  | _ => false

/-- Loop-continuation condition of line 51:
`!input.peek(syn::Ident) || input.peek2(Token![:])`. -/
def loopCond (toks : List Tok) : Bool :=
  !peekIdent toks || peek2Colon toks

/-- The optional trailing comma the clause parsers consume (lines 59-61,
67-69, 75-77). -/
def stripComma : List Tok → List Tok
  | .comma :: r => r
  | r => r

/-- `Punctuated::<Ident, Comma>::parse_terminated` over a bracket group's
content (lines 65 and 73): comma-separated identifiers, trailing comma
allowed, empty list allowed. -/
def parseIdentList : List Tok → Except ParseErr (List String)
  | [] => .ok []
  | .ident s :: [] => .ok [s]
  | .ident s :: .comma :: rest2 => (parseIdentList rest2).map (fun l => s :: l)
  | .ident _ :: _ => .error .expectedComma
  | _ => .error .expectedIdentifier

/-- The `while input.peek(Token![|])` loop of the pattern grammar (lines
154-161): each iteration consumes `|`, an optional `*` mark and a state
identifier. -/
def parseMorePatternStates :
    Nat → List (String × Bool) → List Tok → Except ParseErr (List (String × Bool) × List Tok)
  | 0, _, _ => .error .outOfFuel
  | fuel + 1, acc, toks =>
    match toks with
    | .pipe :: .star :: .ident s :: rest2 => parseMorePatternStates fuel (acc ++ [(s, true)]) rest2
    | .pipe :: .star :: _ => .error .expectedIdentifier
    | .pipe :: .ident s :: rest2 => parseMorePatternStates fuel (acc ++ [(s, false)]) rest2
    | .pipe :: _ => .error .expectedIdentifier
    | _ => .ok (acc, toks)

/-- `impl Parse for StatePattern` (lines 138-172): `_` is a wildcard; else
an optional leading `*`, a first state, the `|` loop, and a `Single` when
exactly one state was collected, `Multiple` otherwise. -/
def parseStatePattern (fuel : Nat) (toks : List Tok) :
    Except ParseErr (StatePattern × List Tok) :=
  match toks with
  | .underscore :: rest => .ok (.wildcard, rest)
  | .star :: .ident s :: rest =>
    match parseMorePatternStates fuel [(s, true)] rest with
    | .ok ([p], rest2) => .ok (.single p.1 true, rest2)
    | .ok (states, rest2) => .ok (.multiple states, rest2)
    | .error e => .error e
  | .star :: _ => .error .expectedIdentifier
  | .ident s :: rest =>
    match parseMorePatternStates fuel [(s, false)] rest with
    | .ok ([p], rest2) => .ok (.single p.1 false, rest2)
    | .ok (states, rest2) => .ok (.multiple states, rest2)
    | .error e => .error e
  | _ => .error .expectedIdentifier

/-- The event loop of lines 113-116:
`while input.peek(Token![|]) && !input.peek2(Token![*])`; a `|` followed
by `*` leaves the loop with the `|` unconsumed. -/
def parseMoreEvents :
    Nat → List String → List Tok → Except ParseErr (List String × List Tok)
  | 0, _, _ => .error .outOfFuel
  | fuel + 1, acc, toks =>
    match toks with
    | .pipe :: .star :: _ => .ok (acc, toks)
    | .pipe :: .ident e :: rest2 => parseMoreEvents fuel (acc ++ [e]) rest2
    | .pipe :: _ => .error .expectedIdentifier
    | _ => .ok (acc, toks)

/-- Target clause of lines 118-128: an optional `=` followed by `_`
(internal) or a state identifier; no `=` at all is internal. -/
def parseTarget : List Tok → Except ParseErr (TargetState × List Tok)
  | .eq :: .underscore :: rest => .ok (.internal, rest)
  | .eq :: .ident t :: rest => .ok (.state t, rest)
  | .eq :: _ => .error .expectedIdentifier
  | toks => .ok (.internal, toks)

/-- `impl Parse for Transition` (lines 105-136): pattern, `+`, first
event, the `|` event loop, then the target clause. -/
def parseTransition (fuel : Nat) (toks : List Tok) :
    Except ParseErr (Transition × List Tok) :=
  match parseStatePattern fuel toks with
  | .error e => .error e
  | .ok (pat, rest) =>
    match rest with
    | .plus :: .ident e0 :: rest2 =>
      match parseMoreEvents fuel [e0] rest2 with
      | .error e => .error e
      | .ok (events, rest3) =>
        match parseTarget rest3 with
        | .error e => .error e
        | .ok (target, rest4) => .ok (⟨pat, events, target⟩, rest4)
    | .plus :: _ => .error .expectedIdentifier
    | _ => .error .expectedPlus

/-- `Punctuated::<Transition, Comma>::parse_terminated` over the brace
group's content (lines 81-82): comma-separated transitions with an
optional trailing comma. -/
def parseTransitionsAux :
    Nat → List Transition → List Tok → Except ParseErr (List Transition)
  | 0, _, _ => .error .outOfFuel
  | fuel + 1, acc, toks =>
    match toks with
    | [] => .ok acc
    | _ =>
      match parseTransition fuel toks with
      | .error e => .error e
      | .ok (tr, rest) =>
        match rest with
        | [] => .ok (acc ++ [tr])
        | .comma :: rest2 => parseTransitionsAux fuel (acc ++ [tr]) rest2
        | _ => .error .expectedComma

def parseTransitionList (toks : List Tok) : Except ParseErr (List Transition) :=
  parseTransitionsAux (toks.length + 1) [] toks

/-- The clause loop of `impl Parse for StateMachine` (lines 45-103).  The
loop runs while `!peek(Ident) || peek2(colon)`; in its body a failed
identifier lookahead is the `expectedIdentifier` diagnostic (line 97),
and known clauses are dispatched in source order, `transitions` returning
immediately.  When the loop condition fails — the next token is an
identifier not followed by a colon — line 101 reports
`missingTransitionsBlock` ("Expected 'transitions' block"). -/
def parseSMAux :
    Nat → Option String → Option (List String) → Option (List String) → List Tok →
      Except ParseErr StateMachine
  | 0, _, _, _, _ => .error .outOfFuel
  | fuel + 1, name, ds, de, toks =>
    if loopCond toks then
      match toks with
      | .ident s :: .colon :: rest2 =>
        if s = "name" then
          match rest2 with
          | .ident v :: rest3 => parseSMAux fuel (some v) ds de (stripComma rest3)
          | _ => .error .expectedIdentifier
        else if s = "derive_states" then
          match rest2 with
          | .bracket content :: rest3 =>
            match parseIdentList content with
            | .ok l => parseSMAux fuel name (some l) de (stripComma rest3)
            | .error e => .error e
          | _ => .error .expectedBracket
        else if s = "derive_events" then
          match rest2 with
          | .bracket content :: rest3 =>
            match parseIdentList content with
            | .ok l => parseSMAux fuel name ds (some l) (stripComma rest3)
            | .error e => .error e
          | _ => .error .expectedBracket
        else if s = "transitions" then
          match rest2 with
          | .brace content :: _ =>
            match parseTransitionList content with
            | .ok trs => .ok ⟨name, ds, de, trs⟩
            | .error e => .error e
          | _ => .error .expectedBrace
        else .error (.unknownClause s)
      | .ident _ :: _ => .error .expectedColon
      | _ => .error .expectedIdentifier
    else .error .missingTransitionsBlock

def parseStateMachine (toks : List Tok) : Except ParseErr StateMachine :=
  parseSMAux (toks.length + 1) none none none toks

/-! ### Helper lemmas about the parser

The sub-parsers of the transitions grammar can fail, but never with the
`missingTransitionsBlock` diagnostic: that error is produced by line 101
of the clause loop alone. -/

theorem parseIdentList_ne_mtb (toks : List Tok) :
    parseIdentList toks ≠ .error .missingTransitionsBlock := by
  induction toks using parseIdentList.induct with
  | case3 s rest2 ih =>
    intro h
    rw [parseIdentList] at h
    cases hp : parseIdentList rest2 with
    | ok l => rw [hp] at h; cases h
    | error e => rw [hp] at h; cases h; exact ih hp
  | _ => simp [parseIdentList]

theorem parseMorePatternStates_ne_mtb (fuel : Nat) (acc : List (String × Bool))
    (toks : List Tok) :
    parseMorePatternStates fuel acc toks ≠ .error .missingTransitionsBlock := by
  induction fuel, acc, toks using parseMorePatternStates.induct <;>
    simp_all [parseMorePatternStates]

theorem parseStatePattern_ne_mtb (fuel : Nat) (toks : List Tok) :
    parseStatePattern fuel toks ≠ .error .missingTransitionsBlock := by
  intro h
  rw [parseStatePattern.eq_def] at h
  split at h <;> try cases h
  all_goals split at h <;> try cases h
  all_goals rename_i heq
  all_goals exact parseMorePatternStates_ne_mtb _ _ _ heq

theorem parseMoreEvents_ne_mtb (fuel : Nat) (acc : List String) (toks : List Tok) :
    parseMoreEvents fuel acc toks ≠ .error .missingTransitionsBlock := by
  induction fuel, acc, toks using parseMoreEvents.induct <;>
    simp_all [parseMoreEvents]

theorem parseTarget_ne_mtb (toks : List Tok) :
    parseTarget toks ≠ .error .missingTransitionsBlock := by
  intro h
  rw [parseTarget.eq_def] at h
  split at h <;> cases h

theorem parseTransition_ne_mtb (fuel : Nat) (toks : List Tok) :
    parseTransition fuel toks ≠ .error .missingTransitionsBlock := by
  intro h
  rw [parseTransition.eq_def] at h
  split at h <;> try cases h
  all_goals try (split at h <;> try cases h)
  all_goals try (split at h <;> try cases h)
  all_goals try (split at h <;> try cases h)
  all_goals
    rename_i heq
    first
    | exact parseStatePattern_ne_mtb _ _ heq
    | exact parseMoreEvents_ne_mtb _ _ _ heq
    | exact parseTarget_ne_mtb _ heq

theorem parseTransitionsAux_ne_mtb :
    ∀ (fuel : Nat) (acc : List Transition) (toks : List Tok),
      parseTransitionsAux fuel acc toks ≠ .error .missingTransitionsBlock := by
  intro fuel
  induction fuel with
  | zero => intro acc toks h; cases h
  | succ fuel ih =>
    intro acc toks h
    cases toks with
    | nil => rw [parseTransitionsAux] at h; cases h
    | cons t0 r0 =>
      rw [parseTransitionsAux] at h
      split at h <;> try cases h
      all_goals try (split at h <;> try cases h)
      all_goals
        first
        | exact ih _ _ h
        | (rename_i heq; exact parseTransition_ne_mtb _ _ heq)
        | (intro hc; cases hc)

theorem parseTransitionList_ne_mtb (toks : List Tok) :
    parseTransitionList toks ≠ .error .missingTransitionsBlock :=
  parseTransitionsAux_ne_mtb _ _ _

theorem stripComma_suffix (r : List Tok) : stripComma r <:+ r := by
  cases r with
  | nil => exact List.suffix_refl _
  | cons t r2 =>
    cases t <;> first | exact List.suffix_cons _ _ | exact List.suffix_refl _

/-- When the clause loop's condition fails — which is the only way to
reach line 101 — the stream starts with an identifier not followed by a
colon; in particular the input is not exhausted there. -/
theorem loopCond_false_bare_ident (toks : List Tok) (h : loopCond toks = false) :
    ∃ s rest, toks = Tok.ident s :: rest ∧ rest.head? ≠ some Tok.colon := by
  cases toks with
  | nil => cases h
  | cons t0 rest =>
    cases t0 with
    | ident s =>
      refine ⟨s, rest, rfl, fun hc => ?_⟩
      cases rest with
      | nil => cases hc
      | cons t1 r2 =>
        have ht1 : t1 = Tok.colon := Option.some.inj hc
        subst ht1
        simp [loopCond, peekIdent, peek2Colon] at h
    | colon => cases h
    | comma => cases h
    | star => cases h
    | pipe => cases h
    | plus => cases h
    | underscore => cases h
    | eq => cases h
    | bracket c => cases h
    | brace c => cases h

/-- Exhausted input: with at least one unit of fuel, the clause loop on
an empty stream enters its body (`peek(Ident)` is `false` at end of
input, so `!peek(Ident) || peek2(colon)` holds) and the identifier
lookahead fails — the result is the `expectedIdentifier` lookahead
diagnostic, not `missingTransitionsBlock`. -/
theorem parseSMAux_exhausted (fuel : Nat) (name : Option String)
    (ds de : Option (List String)) :
    parseSMAux (fuel + 1) name ds de [] = .error .expectedIdentifier := rfl

/-- The `missingTransitionsBlock` diagnostic is only ever produced with
the scan stopped at an identifier token that is not followed by a colon:
some such suffix of the input remains unconsumed. -/
theorem parseSMAux_mtb :
    ∀ (fuel : Nat) (name : Option String) (ds de : Option (List String)) (toks : List Tok),
      parseSMAux fuel name ds de toks = .error .missingTransitionsBlock →
      ∃ s rest, (Tok.ident s :: rest) <:+ toks ∧ rest.head? ≠ some Tok.colon := by
  intro fuel
  induction fuel with
  | zero => intro name ds de toks h; cases h
  | succ fuel ih =>
    intro name ds de toks h
    cases toks with
    | nil => rw [parseSMAux_exhausted] at h; cases h
    | cons t0 r0 =>
      by_cases ht0 : ∃ s, t0 = Tok.ident s
      case neg =>
        exfalso
        cases t0 <;> simp only [not_exists] at ht0 <;>
          first
          | exact (ht0 _ rfl).elim
          | (simp [parseSMAux, loopCond, peekIdent, peek2Colon] at h)
      case pos =>
        obtain ⟨s, rfl⟩ := ht0
        cases r0 with
        | nil => exact ⟨s, [], List.suffix_refl _, fun hc => Option.noConfusion hc⟩
        | cons t1 r1 =>
          by_cases ht1 : t1 = Tok.colon
          case neg =>
            exact ⟨s, t1 :: r1, List.suffix_refl _, fun hc => ht1 (Option.some.inj hc)⟩
          case pos =>
            subst ht1
            simp only [parseSMAux] at h
            split at h <;> try cases h
            all_goals try (split at h <;> try cases h)
            all_goals try (split at h <;> try cases h)
            all_goals try (split at h <;> try cases h)
            all_goals try (split at h <;> try cases h)
            all_goals try (split at h <;> try cases h)
            all_goals try (split at h <;> try cases h)
            all_goals
              first
              | (rename_i heq; exact absurd heq (parseIdentList_ne_mtb _))
              | (rename_i heq; exact absurd heq (parseTransitionList_ne_mtb _))
              | (obtain ⟨s2, r2, hsfx, hne⟩ := ih _ _ _ _ h
                 exact ⟨s2, r2,
                   hsfx.trans ((stripComma_suffix _).trans
                     ⟨[Tok.ident _, Tok.colon, Tok.ident _], rfl⟩), hne⟩)
              | (obtain ⟨s2, r2, hsfx, hne⟩ := ih _ _ _ _ h
                 exact ⟨s2, r2,
                   hsfx.trans ((stripComma_suffix _).trans
                     ⟨[Tok.ident _, Tok.colon, Tok.bracket _], rfl⟩), hne⟩)
              | (rename_i hlc; exact absurd rfl hlc)

/-! ## Capability derives (lib.rs lines 280-295) -/

/-- The `default_derives` list of lines 280-285. -/
def default_derives : List String := ["Debug", "Clone", "PartialEq", "Eq"]

/-- The derive list emitted for the State type (lines 287-290):
the declared `derive_states`, else the default list. -/
def state_derives (sm : StateMachine) : List String :=
  sm.derive_states.getD default_derives

/-- The derive list emitted for the Event type (lines 292-295). -/
def event_derives (sm : StateMachine) : List String :=
  sm.derive_events.getD default_derives

/-! ### Further helper lemmas towards the claims -/

/-- A transition concretely declares the pair `(s, e)`: `s` is one of the
names its (non-wildcard) pattern expands to and `e` is in its event
list. -/
def declaresPair (t : Transition) (s e : String) : Prop :=
  s ∈ patternStateNames t.states ∧ e ∈ t.events

instance (t : Transition) (s e : String) : Decidable (declaresPair t s e) := by
  unfold declaresPair
  infer_instance

theorem mem_transPairs (t : Transition) (s e : String) :
    (s, e) ∈ transPairs t ↔ declaresPair t s e := by
  rw [transPairs, declaresPair, List.mem_flatMap]
  constructor
  · rintro ⟨st, hst, hmem⟩
    obtain ⟨ev, hev, heq⟩ := List.mem_map.mp hmem
    obtain ⟨rfl, rfl⟩ := Prod.mk.injEq .. |>.mp heq
    exact ⟨hst, hev⟩
  · rintro ⟨hs, he⟩
    exact ⟨s, hs, List.mem_map.mpr ⟨e, he, rfl⟩⟩

theorem stateCond_of_mem (p : StatePattern) (s : String)
    (h : s ∈ patternStateNames p) : stateCond p s = true := by
  cases p with
  | single ident initial =>
    rw [patternStateNames, List.mem_singleton] at h
    subst h
    simp [stateCond]
  | multiple sts =>
    rw [patternStateNames] at h
    obtain ⟨q, hq, hqs⟩ := List.mem_map.mp h
    rw [stateCond, List.any_eq_true]
    exact ⟨q, hq, by simp [hqs]⟩
  | wildcard => cases h

theorem pattern_ne_wildcard_of_mem (p : StatePattern) (s : String)
    (h : s ∈ patternStateNames p) : p ≠ StatePattern.wildcard := by
  intro hw
  subst hw
  cases h

theorem transMatches_of_declares (t : Transition) (s e : String)
    (h : declaresPair t s e) : transMatches t s e = true := by
  rw [transMatches, Bool.and_eq_true]
  exact ⟨stateCond_of_mem _ _ h.1, List.elem_iff.mpr h.2⟩

theorem processEventSpec_append_of_isSome (l1 l2 : List Transition) (s e : String)
    (h : (processEventSpec l1 s e).isSome = true) :
    processEventSpec (l1 ++ l2) s e = processEventSpec l1 s e := by
  rw [processEventSpec, processEventSpec, selectedTransition, selectedTransition,
    List.find?_append]
  cases hf : l1.find? (fun t => transMatches t s e) with
  | some t => simp [Option.or]
  | none =>
    rw [processEventSpec, selectedTransition, hf] at h
    cases h

theorem markedFirst_mem_referenced (ts : List Transition) (x : String)
    (h : markedFirst ts = some x) : x ∈ referencedStates ts := by
  rw [markedFirst, Option.map_eq_some'] at h
  obtain ⟨q, hfind, rfl⟩ := h
  obtain ⟨t, ht, hqe⟩ := List.mem_flatMap.mp (List.mem_of_find?_eq_some hfind)
  apply List.mem_flatMap_of_mem ht
  apply List.mem_append_left
  cases hs : t.states with
  | single ident initial =>
    rw [hs, patternEntries, List.mem_singleton] at hqe
    subst hqe
    rw [patternStateNames]
    exact List.mem_singleton.mpr rfl
  | multiple sts =>
    rw [hs, patternEntries] at hqe
    rw [patternStateNames]
    exact List.mem_map.mpr ⟨q, hqe, rfl⟩
  | wildcard => rw [hs, patternEntries] at hqe; cases hqe

theorem count_dedupFirst (l : List String) (x : String) :
    (dedupFirst l).count x = if x ∈ l then 1 else 0 := by
  by_cases hx : x ∈ l
  · rw [if_pos hx]
    exact List.count_eq_one_of_mem (nodup_dedupFirst l) ((mem_dedupFirst l x).mpr hx)
  · rw [if_neg hx]
    exact List.count_eq_zero.mpr (fun hc => hx ((mem_dedupFirst l x).mp hc))

theorem resolvedInitial_of_allStates_nil (ts : List Transition)
    (hnil : (buildModel ts).allStates = []) : resolvedInitial ts = "Initial" := by
  have hbm := buildModel_eq ts
  rw [hbm] at hnil
  have hrefs : referencedStates ts = [] := (dedupFirst_eq_nil_iff _).mp hnil
  have hmark : markedFirst ts = none := by
    cases hm : markedFirst ts with
    | none => rfl
    | some x =>
      have hx := markedFirst_mem_referenced ts x hm
      rw [hrefs] at hx
      cases hx
  rw [resolvedInitial, hbm, hmark, hrefs]
  rfl

theorem referencedStates_nil_of_all_wildcard_internal (ts : List Transition)
    (h : ∀ t ∈ ts, t.states = StatePattern.wildcard ∧ t.target = TargetState.internal) :
    referencedStates ts = [] := by
  rw [List.eq_nil_iff_forall_not_mem]
  intro x hx
  obtain ⟨t, ht, hmem⟩ := List.mem_flatMap.mp hx
  obtain ⟨hw, hi⟩ := h t ht
  rw [hw, hi, patternStateNames, targetNames, List.append_nil] at hmem
  cases hmem

/-! ## Example specs used by the witnesses -/

/-- Scenario A of the spec: `*Off + PowerOn = Idle, Idle + Shutdown = Off`. -/
def scenarioA : List Transition :=
  [ { states := .single "Off" true, events := ["PowerOn"], target := .state "Idle" },
    { states := .single "Idle" false, events := ["Shutdown"], target := .state "Off" } ]

/-- Scenario B of the spec: `Idle + Tick = _`. -/
def scenarioB : List Transition :=
  [ { states := .single "Idle" false, events := ["Tick"], target := .internal } ]

/-- Scenario D of the spec: `Alive + Kill = Wounded, _ + Kill = Dead`. -/
def scenarioD : List Transition :=
  [ { states := .single "Alive" false, events := ["Kill"], target := .state "Wounded" },
    { states := .wildcard, events := ["Kill"], target := .state "Dead" } ]

/-- Scenario E of the spec: `Idle + Go = A, Idle + Go = B`. -/
def scenarioE : List Transition :=
  [ { states := .single "Idle" false, events := ["Go"], target := .state "A" },
    { states := .single "Idle" false, events := ["Go"], target := .state "B" } ]

/-- A rule repeating an event inside one transition: `A + X | X = B`. -/
def repeatedEventRule : List Transition :=
  [ { states := .single "A" false, events := ["X", "X"], target := .state "B" } ]

/-- A spec whose every rule is wildcard-sourced and internal-targeted:
`_ + E = _`. -/
def wildcardOnlySpec : List Transition :=
  [ { states := .wildcard, events := ["E"], target := .internal } ]

/-- A machine with no clauses configured. -/
def emptySpec : StateMachine :=
  { name := none, derive_states := none, derive_events := none, transitions := [] }

/-! ## The claims -/

/-- C1: the generated `process_event(current_state, event)` performs an
ordered first-match scan over the transition list in declaration order:
the emitted flattened per-event checks (`processEvent`) coincide with the
first-match scan that tests, per transition, the state predicate (true
for a wildcard, equality for a single state, disjunction of equalities
for a multiple pattern) together with event-list membership and maps the
first match to its result (`processEventSpec`); and the result is `none`
— explicit absence — exactly when no transition matches. -/
theorem claim_C1_evaluator_first_match (ts : List Transition) (s e : String) :
    processEvent ts s e = processEventSpec ts s e ∧
    (processEvent ts s e = none ↔ ∀ t ∈ ts, transMatches t s e = false) := by
  refine ⟨processEvent_eq_spec ts s e, ?_⟩
  rw [processEvent_eq_spec, processEventSpec, selectedTransition, Option.map_eq_none',
    List.find?_eq_none]
  simp only [Bool.not_eq_true]

theorem claim_C1_witness :
    processEvent scenarioA "Off" "PowerOn" = processEventSpec scenarioA "Off" "PowerOn" ∧
    (processEvent scenarioA "Off" "PowerOn" = none ↔
      ∀ t ∈ scenarioA, transMatches t "Off" "PowerOn" = false) :=
  claim_C1_evaluator_first_match scenarioA "Off" "PowerOn"

/-- C2: a spec in which two distinct transitions both declare the same
concrete (non-wildcard) source state with the same event fails validation
with a `DuplicateTransition` error; the reported pair is the first
offending key of the walk (its position in `allPairs` is the first whose
key already occurred, `pre` being the duplicate-free prefix already seen)
and names a genuinely declared (state, event) pair; transitions with a
wildcard source are invisible to the check (filtering them out leaves the
validator's verdict unchanged), so they neither trigger nor are flagged
by it. -/
theorem claim_C2_duplicate_transition_rejected (ts : List Transition) (s e : String)
    (hdup : ∃ (i : Nat) (hi : i < ts.length) (j : Nat) (hj : j < ts.length),
      i ≠ j ∧ declaresPair (ts.get ⟨i, hi⟩) s e ∧ declaresPair (ts.get ⟨j, hj⟩) s e) :
    (∃ k pre post, validateNoDuplicateTransitions ts = .error k ∧
        allPairs ts = pre ++ k :: post ∧ pre.Nodup ∧ k ∈ pre) ∧
    validateNoDuplicateTransitions (ts.filter (fun t => !isWildcard t.states)) =
      validateNoDuplicateTransitions ts ∧
    (∀ p : String × String, p ∈ allPairs ts ↔ ∃ t ∈ ts, declaresPair t p.1 p.2) := by
  refine ⟨?_, validate_ignores_wildcards ts, ?_⟩
  · obtain ⟨i, hi, j, hj, hne, hdi, hdj⟩ := hdup
    have hmi : (s, e) ∈ transPairs (ts.get ⟨i, hi⟩) := (mem_transPairs _ _ _).mpr hdi
    have hmj : (s, e) ∈ transPairs (ts.get ⟨j, hj⟩) := (mem_transPairs _ _ _).mpr hdj
    apply validate_error_of_not_nodup
    rcases Nat.lt_or_ge i j with hij | hge
    · exact not_nodup_flatMap_of_shared ts transPairs i j hi hj hij _ hmi hmj
    · have hji : j < i := Nat.lt_of_le_of_ne hge (fun hc => hne hc.symm)
      exact not_nodup_flatMap_of_shared ts transPairs j i hj hi hji _ hmj hmi
  · intro p
    rw [allPairs, List.mem_flatMap]
    constructor
    · rintro ⟨t, ht, hp⟩
      exact ⟨t, ht, (mem_transPairs t p.1 p.2).mp hp⟩
    · rintro ⟨t, ht, hp⟩
      exact ⟨t, ht, (mem_transPairs t p.1 p.2).mpr hp⟩

theorem claim_C2_witness :
    (∃ k pre post, validateNoDuplicateTransitions scenarioE = .error k ∧
        allPairs scenarioE = pre ++ k :: post ∧ pre.Nodup ∧ k ∈ pre) ∧
    validateNoDuplicateTransitions scenarioE = .error ("Idle", "Go") :=
  ⟨(claim_C2_duplicate_transition_rejected scenarioE "Idle" "Go"
      ⟨0, by decide, 1, by decide, by decide, by decide, by decide⟩).1,
    rfl⟩

/-- C3: the walk's recorded initial state is exactly the first
`*`-marked state in declaration order (`markedFirst`), so a mark is never
overwritten by later marks; the resolved initial state — the variant the
emitted `Default` implementation returns — is that state, else the first
state discovered by the walk (the head of the canonical list, which is
the first referenced state), else the synthetic name `"Initial"` when the
canonical state list is empty. -/
theorem claim_C3_initial_state_resolution (ts : List Transition) :
    (buildModel ts).initialState = markedFirst ts ∧
    resolvedInitial ts =
      (markedFirst ts).getD ((((buildModel ts).allStates).head?).getD "Initial") ∧
    ((buildModel ts).allStates).head? = (referencedStates ts).head? ∧
    ((buildModel ts).allStates = [] → resolvedInitial ts = "Initial") := by
  have hbm := buildModel_eq ts
  refine ⟨by rw [hbm], by rw [resolvedInitial, hbm], ?_, ?_⟩
  · rw [hbm]
    exact head?_dedupFirst _
  · exact resolvedInitial_of_allStates_nil ts

theorem claim_C3_witness :
    (buildModel scenarioA).initialState = markedFirst scenarioA ∧
    markedFirst scenarioA = some "Off" ∧
    resolvedInitial ([] : List Transition) = "Initial" :=
  ⟨(claim_C3_initial_state_resolution scenarioA).1, by decide,
    (claim_C3_initial_state_resolution []).2.2.2 rfl⟩

/-- C4: if the transition at position `j` is a wildcard rule for event
`e` and every specific-state rule mentioning `e` is declared strictly
before `j`, then for any state `s` that has its own specific rule for `e`
the evaluation of `(s, e)` is already decided strictly before position
`j` — the result equals the scan over the prefix `ts.take j`, which
excludes the wildcard rule, and is a hit; hence the wildcard rule is
never the one selected for such a state. -/
theorem claim_C4_specific_shadows_later_wildcard (ts : List Transition) (j : Nat)
    (hj : j < ts.length) (s e : String)
    (_hw : (ts.get ⟨j, hj⟩).states = StatePattern.wildcard)
    (_hwe : e ∈ (ts.get ⟨j, hj⟩).events)
    (hafter : ∀ (i : Nat) (hi : i < ts.length),
      (ts.get ⟨i, hi⟩).states ≠ StatePattern.wildcard →
      e ∈ (ts.get ⟨i, hi⟩).events → i < j)
    (hspec : ∃ (i : Nat) (hi : i < ts.length), declaresPair (ts.get ⟨i, hi⟩) s e) :
    processEvent ts s e = processEvent (ts.take j) s e ∧
      (processEvent ts s e).isSome = true := by
  obtain ⟨i, hi, hd⟩ := hspec
  have hij : i < j :=
    hafter i hi (pattern_ne_wildcard_of_mem _ _ hd.1) hd.2
  have hi2 : i < (ts.take j).length := by
    rw [List.length_take]
    exact Nat.lt_min.mpr ⟨hij, hi⟩
  have hget : (ts.take j).get ⟨i, hi2⟩ = ts.get ⟨i, hi⟩ := (List.get_take ts hi hij).symm
  have hsome : (processEventSpec (ts.take j) s e).isSome = true := by
    rw [processEventSpec, selectedTransition, Option.isSome_map', List.find?_isSome]
    exact ⟨ts.get ⟨i, hi⟩, hget ▸ List.get_mem _ _ _, transMatches_of_declares _ _ _ hd⟩
  have happ := processEventSpec_append_of_isSome (ts.take j) (ts.drop j) s e hsome
  rw [List.take_append_drop] at happ
  constructor
  · rw [processEvent_eq_spec, processEvent_eq_spec, happ]
  · rw [processEvent_eq_spec, happ]
    exact hsome

theorem claim_C4_witness :
    (processEvent scenarioD "Alive" "Kill" =
        processEvent (scenarioD.take 1) "Alive" "Kill" ∧
      (processEvent scenarioD "Alive" "Kill").isSome = true) ∧
    processEvent scenarioD "Alive" "Kill" = some "Wounded" :=
  ⟨claim_C4_specific_shadows_later_wildcard scenarioD 1 (by decide) "Alive" "Kill"
      (by decide) (by decide) (by decide) ⟨0, by decide, by decide⟩,
    by decide⟩

/-- C5: when the transition selected by the first-match scan has an
internal target, and the current state is covered by its pattern with the
event in its list, `process_event` returns `Some` of the current state
value itself. -/
theorem claim_C5_internal_target_returns_state (ts : List Transition) (s e : String)
    (t : Transition) (hsel : selectedTransition ts s e = some t)
    (hint : t.target = TargetState.internal)
    (_hcov : stateCond t.states s = true) (_hev : e ∈ t.events) :
    processEvent ts s e = some s := by
  rw [processEvent_eq_spec, processEventSpec, hsel, Option.map_some', hint, targetOf]

theorem claim_C5_witness :
    processEvent scenarioB "Idle" "Tick" = some "Idle" :=
  claim_C5_internal_target_returns_state scenarioB "Idle" "Tick"
    { states := .single "Idle" false, events := ["Tick"], target := .internal }
    (by decide) (by decide) (by decide) (by decide)

/-- C6: after the model-building walk the canonical state list is the
keep-first deduplication of the stream of state references (concrete
pattern sources then named targets, per transition, in declaration
order) — so it is duplicate-free, contains exactly the referenced names,
each exactly once, in first-seen order — and the canonical event list is
likewise the keep-first deduplication of the event reference stream;
wildcard sources and internal targets contribute nothing to these
streams by construction. -/
theorem claim_C6_canonical_lists (ts : List Transition) :
    (buildModel ts).allStates = dedupFirst (referencedStates ts) ∧
    ((buildModel ts).allStates).Nodup ∧
    (∀ x : String, ((buildModel ts).allStates).count x =
      if x ∈ referencedStates ts then 1 else 0) ∧
    (buildModel ts).allEvents = dedupFirst (referencedEvents ts) ∧
    ((buildModel ts).allEvents).Nodup ∧
    (∀ x : String, ((buildModel ts).allEvents).count x =
      if x ∈ referencedEvents ts then 1 else 0) := by
  have hbm := buildModel_eq ts
  refine ⟨by rw [hbm], ?_, ?_, by rw [hbm], ?_, ?_⟩
  · rw [hbm]; exact nodup_dedupFirst _
  · intro x; rw [hbm]; exact count_dedupFirst _ x
  · rw [hbm]; exact nodup_dedupFirst _
  · intro x; rw [hbm]; exact count_dedupFirst _ x

/-- C7 counterexample: on exhausted input the parser does not produce the
`missingTransitionsBlock` ("Expected 'transitions' block") diagnostic.
At end of input `peek(Ident)` is false, so the clause loop is entered and
the identifier lookahead fails: the error is the `expectedIdentifier`
lookahead diagnostic. -/
theorem claim_C7_cex :
    parseStateMachine [] = .error ParseErr.expectedIdentifier ∧
    parseStateMachine [] ≠ .error ParseErr.missingTransitionsBlock := by
  refine ⟨rfl, fun h => ?_⟩
  exact ParseErr.noConfusion (Except.error.inj h)

/-- C7 (amended): when the input text is exhausted without a
`transitions:` clause having been encountered, parsing fails with the
`expectedIdentifier` lookahead diagnostic — at any loop iteration, i.e.
for any fuel and accumulated clause state; the `missingTransitionsBlock`
("Expected 'transitions' block") diagnostic instead occurs only when the
scan stops at an identifier token that is not followed by a colon, so
that some unconsumed suffix of the input remains. -/
theorem claim_C7_missing_transitions_diagnostic (toks : List Tok) :
    (parseStateMachine toks = .error ParseErr.missingTransitionsBlock →
      ∃ s rest, (Tok.ident s :: rest) <:+ toks ∧ rest.head? ≠ some Tok.colon) ∧
    (∀ (fuel : Nat) (name : Option String) (ds de : Option (List String)),
      parseSMAux (fuel + 1) name ds de [] = .error ParseErr.expectedIdentifier) :=
  ⟨fun h => parseSMAux_mtb _ _ _ _ _ h,
    fun fuel name ds de => parseSMAux_exhausted fuel name ds de⟩

theorem claim_C7_witness :
    parseStateMachine [Tok.ident "transitions"] =
      .error ParseErr.missingTransitionsBlock ∧
    (∃ s rest, (Tok.ident s :: rest) <:+ [Tok.ident "transitions"] ∧
      rest.head? ≠ some Tok.colon) :=
  ⟨rfl, (claim_C7_missing_transitions_diagnostic [Tok.ident "transitions"]).1 rfl⟩

/-- C8 counterexample: with `derive_states` omitted, the emitted derive
list is `[Debug, Clone, PartialEq, Eq]` — it contains `PartialEq`, so it
is not exactly the set `{Debug, Clone, Eq}`. -/
theorem claim_C8_cex :
    state_derives emptySpec = ["Debug", "Clone", "PartialEq", "Eq"] ∧
    state_derives emptySpec ≠ ["Debug", "Clone", "Eq"] ∧
    "PartialEq" ∈ state_derives emptySpec := by
  refine ⟨rfl, by decide, by decide⟩

/-- C8 (amended): when the `derive_states` (respectively `derive_events`)
clause is omitted, the generated State (respectively Event) type derives
exactly the fixed baseline list `[Debug, Clone, PartialEq, Eq]` and
nothing else. -/
theorem claim_C8_default_derives (sm : StateMachine) :
    (sm.derive_states = none →
      state_derives sm = ["Debug", "Clone", "PartialEq", "Eq"]) ∧
    (sm.derive_events = none →
      event_derives sm = ["Debug", "Clone", "PartialEq", "Eq"]) := by
  constructor <;> intro h <;> simp [state_derives, event_derives, h, default_derives]

theorem claim_C8_witness :
    state_derives emptySpec = ["Debug", "Clone", "PartialEq", "Eq"] ∧
    event_derives emptySpec = ["Debug", "Clone", "PartialEq", "Eq"] :=
  ⟨(claim_C8_default_derives emptySpec).1 rfl, (claim_C8_default_derives emptySpec).2 rfl⟩

/-- C9: duplicates inside a single transition are rejected by the same
duplicate check as duplicates across transitions: if any one transition's
expanded (state, event) keys contain the same pair twice — a repeated
event for a concrete source, or a repeated state in a `Multiple` pattern
with a shared event, i.e. the rule's own expanded key list is not
duplicate-free — validation fails, with the first offending key reported,
because the seen-set accumulates across all keys of one rule. -/
theorem claim_C9_within_rule_duplicates_rejected (ts : List Transition) (i : Nat)
    (hi : i < ts.length)
    (hdup : ¬ ((transPairs (ts.get ⟨i, hi⟩)).Nodup)) :
    ∃ k pre post, validateNoDuplicateTransitions ts = .error k ∧
      allPairs ts = pre ++ k :: post ∧ pre.Nodup ∧ k ∈ pre := by
  apply validate_error_of_not_nodup
  intro hnd
  obtain ⟨hall, -⟩ := List.nodup_flatMap.mp hnd
  exact hdup (hall _ (List.get_mem ts i hi))

theorem claim_C9_witness :
    (∃ k pre post, validateNoDuplicateTransitions repeatedEventRule = .error k ∧
        allPairs repeatedEventRule = pre ++ k :: post ∧ pre.Nodup ∧ k ∈ pre) ∧
    validateNoDuplicateTransitions repeatedEventRule = .error ("A", "X") :=
  ⟨claim_C9_within_rule_duplicates_rejected repeatedEventRule 0 (by decide)
      (by decide),
    rfl⟩

/-- C10: when every transition has a wildcard source and an internal
target, the walk collects no states, so the canonical state list — the
emitted State enum's variant list — is empty; the resolved initial state
falls back to the synthetic name "Initial", which is never added to the
state list: the variant the emitted `Default` implementation references
is not among the enum's (zero) variants. -/
theorem claim_C10_synthetic_initial_not_added (ts : List Transition)
    (h : ∀ t ∈ ts, t.states = StatePattern.wildcard ∧ t.target = TargetState.internal) :
    (buildModel ts).allStates = [] ∧ resolvedInitial ts = "Initial" ∧
      resolvedInitial ts ∉ (buildModel ts).allStates := by
  have hrefs := referencedStates_nil_of_all_wildcard_internal ts h
  have hnil : (buildModel ts).allStates = [] := by
    rw [buildModel_eq, hrefs]
    rfl
  refine ⟨hnil, resolvedInitial_of_allStates_nil ts hnil, ?_⟩
  rw [hnil]
  exact List.not_mem_nil _

theorem claim_C10_witness :
    (buildModel wildcardOnlySpec).allStates = [] ∧
    resolvedInitial wildcardOnlySpec = "Initial" ∧
    resolvedInitial wildcardOnlySpec ∉ (buildModel wildcardOnlySpec).allStates :=
  claim_C10_synthetic_initial_not_added wildcardOnlySpec (by decide)

end Stateless
